import Mathlib

/-!
Shallow embedding of `src/generate_password.py` (`generate_password` and the
constants it uses).  Randomness is made explicit: every call of
`secrets.choice(seq)` consumes one natural number `r` from a stream and
returns `seq[r % len(seq)]` (a uniform draw is some such `r`), and the final
`secrets.SystemRandom().shuffle` consumes its own stream of numbers, one per
iteration of the Fisher-Yates loop that CPython's `Random.shuffle` runs
(`for i in reversed(range(1, len(x))): j = randbelow(i+1); swap x[i] x[j]`).
Python's `ValueError` is modelled as `Except.error` carrying the message.
-/

namespace PasswordGen

/-- `string.ascii_uppercase`, bound to `uppercase` in the source. -/
def ascii_uppercase : List Char := "ABCDEFGHIJKLMNOPQRSTUVWXYZ".toList

/-- `string.ascii_lowercase`, bound to `lowercase` in the source. -/
def ascii_lowercase : List Char := "abcdefghijklmnopqrstuvwxyz".toList

/-- `string.digits`, bound to `digits` in the source. -/
def digits : List Char := "0123456789".toList

/-- The special-character alphabet literal of the source. -/
def special : List Char := "!@#$%^&*()_+-=[]\x7b\x7d|;:,.<>?".toList

/-- `similar_chars = "il1Lo0O"`: characters that look similar. -/
def similar_chars : List Char := "il1Lo0O".toList

/-- The keyword arguments of `generate_password`. -/
structure Config where
  length : Nat
  use_uppercase : Bool
  use_lowercase : Bool
  use_digits : Bool
  use_special : Bool
  exclude_similar : Bool
deriving DecidableEq, Repr

/-- The pool before exclusion: `chars` after the four `if use_*` appends. -/
def class_concat (c : Config) : List Char :=
  (if c.use_uppercase then ascii_uppercase else []) ++
  (if c.use_lowercase then ascii_lowercase else []) ++
  (if c.use_digits then digits else []) ++
  (if c.use_special then special else [])

/-- `chars` after the `exclude_similar` filter
(`''.join(c for c in chars if c not in similar_chars)`). -/
def chars_pool (c : Config) : List Char :=
  if c.exclude_similar then
    (class_concat c).filter (fun ch => !(similar_chars.contains ch))
  else class_concat c

/-- `min_length = sum([use_uppercase, use_lowercase, use_digits, use_special])`. -/
def min_length (c : Config) : Nat :=
  (if c.use_uppercase then 1 else 0) + (if c.use_lowercase then 1 else 0) +
  (if c.use_digits then 1 else 0) + (if c.use_special then 1 else 0)

/-- `secrets.choice(s)` with the draw `r` made explicit: `s[r % len(s)]`.
The default is never reached on the non-empty sequences the source uses. -/
def choice (s : List Char) (r : Nat) : Char := s.getD (r % s.length) 'A'

/-- One `if use_x: password.append(secrets.choice(alpha))` step, threading
the buffer and the remaining draw stream. -/
def drawClass (b : Bool) (alpha : List Char) (st : List Char × List Nat) :
    List Char × List Nat :=
  if b then (st.1 ++ [choice alpha (st.2.headD 0)], st.2.tail) else st

/-- The fill loop: `while len(password) < length: char = secrets.choice(chars);
if exclude_similar and char in similar_chars: continue; password.append(char)`.
Each iteration consumes one draw; an exhausted stream ends the loop. -/
def fillLoop (len : Nat) (exclude : Bool) (pool : List Char) :
    List Char → List Nat → List Char × List Nat
  | password, [] => (password, [])
  | password, r :: rest =>
    if len ≤ password.length then (password, r :: rest)
    else
      if exclude && similar_chars.contains (choice pool r) then
        fillLoop len exclude pool password rest
      else
        fillLoop len exclude pool (password ++ [choice pool r]) rest

/-- The four `if use_x: password.append(secrets.choice(x_alphabet))` lines in
source order (uppercase, lowercase, digits, special): the buffer of guaranteed
per-class draws and the unconsumed part of the draw stream. -/
def guarantee_draws (c : Config) (rs : List Nat) : List Char × List Nat :=
  drawClass c.use_special special
    (drawClass c.use_digits digits
      (drawClass c.use_lowercase ascii_lowercase
        (drawClass c.use_uppercase ascii_uppercase ([], rs))))

/-- The guaranteed per-class draws followed by the fill loop: the `password`
list as it stands just before the shuffle, paired with the unconsumed part of
the draw stream. -/
def generate_core (c : Config) (rs : List Nat) : List Char × List Nat :=
  fillLoop c.length c.exclude_similar (chars_pool c)
    (guarantee_draws c rs).1 (guarantee_draws c rs).2

/-- `x[i], x[j] = x[j], x[i]` on a list; out-of-range indices never occur in
the shuffle below but make the function total. -/
def listSwap (l : List Char) (i j : Nat) : List Char :=
  if h : i < l.length ∧ j < l.length then
    (l.set i (l.get ⟨j, h.2⟩)).set j (l.get ⟨i, h.1⟩)
  else l

/-- The body of CPython's `Random.shuffle`: for `i` from `len-1` down to `1`,
swap position `i` with position `j = r % (i+1)` for the next draw `r`. -/
def shuffleGo : List Char → Nat → List Nat → List Char
  | l, 0, _ => l
  | l, _ + 1, [] => l
  | l, i + 1, r :: rest => shuffleGo (listSwap l (i + 1) (r % (i + 2))) i rest

/-- `secrets.SystemRandom().shuffle(password)` with its draws explicit. -/
def shuffle (l : List Char) (ss : List Nat) : List Char :=
  shuffleGo l (l.length - 1) ss

/-- `generate_password`: validation in source order, then the guaranteed
draws, the fill loop and the shuffle.  `rs` feeds every `secrets.choice`,
`ss` feeds the shuffle. -/
def generate_password (c : Config) (rs ss : List Nat) :
    Except String (List Char) :=
  if (chars_pool c).isEmpty then
    Except.error "At least one character set must be enabled"
  else if c.length < min_length c then
    Except.error "Password length must be at least the number of selected character types"
  else
    Except.ok (shuffle (generate_core c rs).1 ss)

/-! ## Basic facts about the alphabets and `choice` -/

lemma upper_ne_nil : ascii_uppercase ≠ [] := by decide

lemma lower_ne_nil : ascii_lowercase ≠ [] := by decide

lemma digits_ne_nil : digits ≠ [] := by decide

lemma special_ne_nil : special ≠ [] := by decide

lemma choice_mem (s : List Char) (r : Nat) (h : s ≠ []) : choice s r ∈ s := by
  have hl : 0 < s.length := List.length_pos.mpr h
  have hm : r % s.length < s.length := Nat.mod_lt _ hl
  rw [choice, List.getD_eq_getElem s 'A' hm]
  exact List.getElem_mem hm

lemma contains_eq_true_iff (l : List Char) (a : Char) :
    l.contains a = true ↔ a ∈ l := List.elem_iff

lemma contains_eq_false_iff (l : List Char) (a : Char) :
    l.contains a = false ↔ a ∉ l := by
  constructor
  · intro h hmem
    rw [(contains_eq_true_iff l a).mpr hmem] at h
    cases h
  · intro h
    cases hc : l.contains a
    · rfl
    · exact absurd ((contains_eq_true_iff l a).mp hc) h

lemma mem_ite_alpha {b : Bool} {alpha : List Char} {ch : Char}
    (h : ch ∈ (if b then alpha else [])) : b = true ∧ ch ∈ alpha := by
  cases b
  · simp at h
  · exact ⟨rfl, by simpa using h⟩

/-! ## The shuffle is a permutation -/

lemma listSwap_perm (l : List Char) (i j : Nat) : (listSwap l i j).Perm l := by
  unfold listSwap
  split
  · rename_i h
    obtain ⟨hi, hj⟩ := h
    simp only [List.get_eq_getElem]
    rw [List.perm_iff_count]
    intro b
    have hj1 : j < (l.set i l[j]).length := by simpa using hj
    have hset : (l.set i l[j])[j] = l[j] := by
      simp [List.getElem_set]
    rw [List.count_set l[i] b (l.set i l[j]) j hj1, hset,
        List.count_set l[j] b l i hi]
    cases hA : (l[i] == b) with
    | true =>
      have hb : l[i] = b := eq_of_beq hA
      have hCpos : 0 < List.count b l :=
        List.count_pos_iff.mpr (hb ▸ List.getElem_mem hi)
      cases hB : (l[j] == b) <;> simp [hA, hB]
      all_goals omega
    | false =>
      cases hB : (l[j] == b) <;> simp [hA, hB]
      all_goals omega
  · exact List.Perm.refl l

lemma shuffleGo_perm (i : Nat) :
    ∀ (ss : List Nat) (l : List Char), (shuffleGo l i ss).Perm l := by
  induction i with
  | zero => intro ss l; simp [shuffleGo]
  | succ n ih =>
    intro ss l
    cases ss with
    | nil => simp [shuffleGo]
    | cons r rest =>
      have h1 := ih rest (listSwap l (n + 1) (r % (n + 2)))
      have h2 := listSwap_perm l (n + 1) (r % (n + 2))
      have heq : shuffleGo l (n + 1) (r :: rest) =
          shuffleGo (listSwap l (n + 1) (r % (n + 2))) n rest := by
        simp [shuffleGo]
      rw [heq]
      exact h1.trans h2

lemma shuffle_perm (l : List Char) (ss : List Nat) : (shuffle l ss).Perm l :=
  shuffleGo_perm (l.length - 1) ss l

lemma shuffle_length (l : List Char) (ss : List Nat) :
    (shuffle l ss).length = l.length := (shuffle_perm l ss).length_eq

lemma shuffle_mem (l : List Char) (ss : List Nat) (ch : Char) :
    ch ∈ shuffle l ss ↔ ch ∈ l := (shuffle_perm l ss).mem_iff

/-! ## The guaranteed per-class draws -/

lemma drawClass_fst (b : Bool) (alpha : List Char) (st : List Char × List Nat) :
    (drawClass b alpha st).1 =
      st.1 ++ (if b then [choice alpha (st.2.headD 0)] else []) := by
  unfold drawClass
  split <;> simp_all

lemma drawClass_snd (b : Bool) (alpha : List Char) (st : List Char × List Nat) :
    (drawClass b alpha st).2 = if b then st.2.tail else st.2 := by
  unfold drawClass
  split <;> simp_all

lemma drawClass_fst_length (b : Bool) (alpha : List Char)
    (st : List Char × List Nat) :
    (drawClass b alpha st).1.length = st.1.length + (if b then 1 else 0) := by
  rw [drawClass_fst]
  cases b <;> simp

lemma drawClass_snd_length (b : Bool) (alpha : List Char)
    (st : List Char × List Nat) :
    (drawClass b alpha st).2.length = st.2.length - (if b then 1 else 0) := by
  rw [drawClass_snd]
  cases b <;> simp [List.length_tail]

lemma guarantee_length (c : Config) (rs : List Nat) :
    (guarantee_draws c rs).1.length = min_length c := by
  simp only [guarantee_draws, drawClass_fst_length, min_length]
  cases c.use_uppercase <;> cases c.use_lowercase <;>
    cases c.use_digits <;> cases c.use_special <;> simp

lemma guarantee_snd_length (c : Config) (rs : List Nat) :
    (guarantee_draws c rs).2.length = rs.length - min_length c := by
  simp only [guarantee_draws, drawClass_snd_length, min_length]
  cases c.use_uppercase <;> cases c.use_lowercase <;>
    cases c.use_digits <;> cases c.use_special <;> simp <;> omega

/-- The buffer of guaranteed draws is, for some draws `rU rL rD rS`, one
`choice` from each enabled class's unfiltered alphabet, in source order. -/
lemma guarantee_eq (c : Config) (rs : List Nat) :
    ∃ rU rL rD rS : Nat, (guarantee_draws c rs).1 =
      (if c.use_uppercase then [choice ascii_uppercase rU] else []) ++
      (if c.use_lowercase then [choice ascii_lowercase rL] else []) ++
      (if c.use_digits then [choice digits rD] else []) ++
      (if c.use_special then [choice special rS] else []) := by
  refine ⟨rs.headD 0,
    (drawClass c.use_uppercase ascii_uppercase ([], rs)).2.headD 0,
    (drawClass c.use_lowercase ascii_lowercase
      (drawClass c.use_uppercase ascii_uppercase ([], rs))).2.headD 0,
    (drawClass c.use_digits digits
      (drawClass c.use_lowercase ascii_lowercase
        (drawClass c.use_uppercase ascii_uppercase ([], rs)))).2.headD 0, ?_⟩
  simp only [guarantee_draws, drawClass_fst]
  simp [List.append_assoc]

/-! ## The fill loop -/

/-- Filling only ever appends, and everything appended comes from the pool. -/
lemma fillLoop_extends (len : Nat) (e : Bool) (pool : List Char) :
    ∀ (rs : List Nat) (pw : List Char),
      ∃ t, (fillLoop len e pool pw rs).1 = pw ++ t ∧
        (pool ≠ [] → ∀ ch ∈ t, ch ∈ pool) := by
  intro rs
  induction rs with
  | nil => intro pw; exact ⟨[], by simp [fillLoop], by simp⟩
  | cons r rest ih =>
    intro pw
    by_cases hfull : len ≤ pw.length
    · refine ⟨[], ?_, by simp⟩
      simp only [fillLoop]
      rw [if_pos hfull]
      simp
    · by_cases hc : (e && similar_chars.contains (choice pool r)) = true
      · obtain ⟨t, ht, hmem⟩ := ih pw
        refine ⟨t, ?_, hmem⟩
        simp only [fillLoop]
        rw [if_neg hfull, if_pos hc]
        exact ht
      · obtain ⟨t, ht, hmem⟩ := ih (pw ++ [choice pool r])
        refine ⟨choice pool r :: t, ?_, ?_⟩
        · simp only [fillLoop]
          rw [if_neg hfull, if_neg hc, ht]
          simp
        · intro hpool ch hch
          rcases List.mem_cons.mp hch with hch | hch
          · exact hch ▸ choice_mem pool r hpool
          · exact hmem hpool ch hch

/-- When the skip condition can never fire (the pool is pre-filtered, or no
exclusion is requested) and the stream holds enough draws, the loop fills the
buffer to exactly `len` characters. -/
lemma fillLoop_length (len : Nat) (e : Bool) (pool : List Char)
    (Hcont : ∀ r, (e && similar_chars.contains (choice pool r)) = false) :
    ∀ (rs : List Nat) (pw : List Char), pw.length ≤ len →
      len ≤ pw.length + rs.length →
      (fillLoop len e pool pw rs).1.length = len := by
  intro rs
  induction rs with
  | nil =>
    intro pw h1 h2
    simp only [fillLoop]
    simp at h2
    omega
  | cons r rest ih =>
    intro pw h1 h2
    by_cases hfull : len ≤ pw.length
    · simp only [fillLoop]
      rw [if_pos hfull]
      simp
      omega
    · have hc : ¬(e && similar_chars.contains (choice pool r)) = true := by
        rw [Hcont r]
        decide
      have hrec := ih (pw ++ [choice pool r])
        (by simp; omega) (by simp at h2 ⊢; omega)
      simp only [fillLoop]
      rw [if_neg hfull, if_neg hc]
      exact hrec

/-- Under the same no-skip condition, the loop consumes exactly
`len - pw.length` draws from the stream (all of them if the stream is
shorter than that). -/
lemma fillLoop_consumed (len : Nat) (e : Bool) (pool : List Char)
    (Hcont : ∀ r, (e && similar_chars.contains (choice pool r)) = false) :
    ∀ (rs : List Nat) (pw : List Char),
      (fillLoop len e pool pw rs).2.length = rs.length - (len - pw.length) := by
  intro rs
  induction rs with
  | nil => intro pw; simp [fillLoop]
  | cons r rest ih =>
    intro pw
    by_cases hfull : len ≤ pw.length
    · simp only [fillLoop]
      rw [if_pos hfull]
      simp
      omega
    · have hc : ¬(e && similar_chars.contains (choice pool r)) = true := by
        rw [Hcont r]
        decide
      have hrec := ih (pw ++ [choice pool r])
      simp only [fillLoop]
      rw [if_neg hfull, if_neg hc, hrec]
      simp
      omega

/-- A buffer already at (or beyond) the target length is returned unchanged
and no draw is consumed. -/
lemma fillLoop_of_full (len : Nat) (e : Bool) (pool : List Char)
    (rs : List Nat) (pw : List Char) (h : len ≤ pw.length) :
    fillLoop len e pool pw rs = (pw, rs) := by
  cases rs <;> simp [fillLoop, h]

/-! ## The candidate pool -/

lemma chars_pool_empty_iff (c : Config) :
    chars_pool c = [] ↔
      (c.use_uppercase || c.use_lowercase || c.use_digits ||
        c.use_special) = false := by
  rcases c with ⟨len, u, lo, d, s, e⟩
  cases u <;> cases lo <;> cases d <;> cases s <;> cases e <;>
    simp [chars_pool, class_concat] <;> decide

lemma chars_pool_ne_nil (c : Config)
    (h : (c.use_uppercase || c.use_lowercase || c.use_digits ||
        c.use_special) = true) : chars_pool c ≠ [] := by
  intro h0
  rw [chars_pool_empty_iff] at h0
  rw [h0] at h
  cases h

/-- In exclusion mode every skip test on a pool draw is false: the pool was
already filtered, so the drawn character is never similar. -/
lemma chars_pool_choice (c : Config) (h : chars_pool c ≠ []) (r : Nat) :
    (c.exclude_similar &&
      similar_chars.contains (choice (chars_pool c) r)) = false := by
  cases he : c.exclude_similar
  · simp
  · simp only [Bool.true_and]
    have hm : choice (chars_pool c) r ∈ chars_pool c := choice_mem _ _ h
    rw [chars_pool, he] at hm
    simp only [if_true] at hm
    have h2 := (List.mem_filter.mp hm).2
    simp only [Bool.not_eq_true'] at h2
    rw [chars_pool, he]
    simp only [if_true]
    exact h2

/-- Every pool character belongs to the unfiltered alphabet of some enabled
class. -/
lemma chars_pool_mem (c : Config) :
    ∀ ch ∈ chars_pool c,
      (c.use_uppercase = true ∧ ch ∈ ascii_uppercase) ∨
      (c.use_lowercase = true ∧ ch ∈ ascii_lowercase) ∨
      (c.use_digits = true ∧ ch ∈ digits) ∨
      (c.use_special = true ∧ ch ∈ special) := by
  intro ch hch
  have hcc : ch ∈ class_concat c := by
    rw [chars_pool] at hch
    split at hch
    · exact (List.mem_filter.mp hch).1
    · exact hch
  rw [class_concat] at hcc
  simp only [List.mem_append] at hcc
  rcases hcc with ((h1 | h2) | h3) | h4
  · exact Or.inl (mem_ite_alpha h1)
  · exact Or.inr (Or.inl (mem_ite_alpha h2))
  · exact Or.inr (Or.inr (Or.inl (mem_ite_alpha h3)))
  · exact Or.inr (Or.inr (Or.inr (mem_ite_alpha h4)))

/-! ## Success normal form and class disjointness -/

/-- A successful call means both validations passed and the result is the
shuffled core buffer. -/
lemma generate_password_ok (c : Config) (rs ss : List Nat) (p : List Char)
    (h : generate_password c rs ss = Except.ok p) :
    chars_pool c ≠ [] ∧ min_length c ≤ c.length ∧
      p = shuffle (generate_core c rs).1 ss := by
  unfold generate_password at h
  split at h
  · injection h
  · split at h
    · injection h
    · rename_i h1 h2
      refine ⟨?_, ?_, ?_⟩
      · intro hnil
        exact h1 (by rw [hnil]; rfl)
      · omega
      · injection h with h
        exact h.symm

lemma lower_not_in_upper : ∀ ch ∈ ascii_lowercase,
    ascii_uppercase.contains ch = false := by decide

lemma digits_not_in_upper : ∀ ch ∈ digits,
    ascii_uppercase.contains ch = false := by decide

lemma special_not_in_upper : ∀ ch ∈ special,
    ascii_uppercase.contains ch = false := by decide

lemma upper_not_in_lower : ∀ ch ∈ ascii_uppercase,
    ascii_lowercase.contains ch = false := by decide

lemma digits_not_in_lower : ∀ ch ∈ digits,
    ascii_lowercase.contains ch = false := by decide

lemma special_not_in_lower : ∀ ch ∈ special,
    ascii_lowercase.contains ch = false := by decide

lemma upper_not_in_digits : ∀ ch ∈ ascii_uppercase,
    digits.contains ch = false := by decide

lemma lower_not_in_digits : ∀ ch ∈ ascii_lowercase,
    digits.contains ch = false := by decide

lemma special_not_in_digits : ∀ ch ∈ special,
    digits.contains ch = false := by decide

lemma upper_not_in_special : ∀ ch ∈ ascii_uppercase,
    special.contains ch = false := by decide

lemma lower_not_in_special : ∀ ch ∈ ascii_lowercase,
    special.contains ch = false := by decide

lemma digits_not_in_special : ∀ ch ∈ digits,
    special.contains ch = false := by decide

/-- A guaranteed draw from a class disjoint from `X` contributes no
`X`-character. -/
lemma countP_opt_zero (X Y : List Char) (b : Bool) (r : Nat) (hY : Y ≠ [])
    (hd : ∀ ch ∈ Y, X.contains ch = false) :
    List.countP (fun ch => X.contains ch)
      (if b then [choice Y r] else []) = 0 := by
  cases b
  · simp
  · simp [List.countP_cons]
    exact (contains_eq_false_iff _ _).mp (hd _ (choice_mem Y r hY))

/-- The guaranteed draw from class `X` itself contributes exactly one
`X`-character. -/
lemma countP_opt_one (X : List Char) (r : Nat) (hX : X ≠ []) :
    List.countP (fun ch => X.contains ch) [choice X r] = 1 := by
  simp [List.countP_cons]
  exact choice_mem X r hX

/-! ## Claim theorems -/

/-- C8 counterexample: contrary to the claim, uppercase letter I is not a
member of `similar_chars` (the AmbiguitySet constant "il1Lo0O"). -/
theorem similar_chars_no_uppercase_I :
    similar_chars.contains 'I' = false ∧ ('I' ∈ similar_chars) = False :=
  ⟨by decide, eq_false (by decide)⟩

/-- C8 (amended): `similar_chars` is the fixed constant "il1Lo0O"; its
members include the digit 1, lowercase l and lowercase i (uppercase L, not
uppercase I), and its exact membership is the seven characters
i, l, 1, L, o, 0, O. -/
theorem similar_chars_membership :
    similar_chars = ['i', 'l', '1', 'L', 'o', '0', 'O'] ∧
    ('1' ∈ similar_chars ∧ 'l' ∈ similar_chars ∧ 'i' ∈ similar_chars ∧
      'L' ∈ similar_chars) ∧
    similar_chars.contains 'I' = false ∧
    (∀ ch : Char, ch ∈ similar_chars ↔
      (ch = 'i' ∨ ch = 'l' ∨ ch = '1' ∨ ch = 'L' ∨ ch = 'o' ∨ ch = '0' ∨
        ch = 'O')) := by
  have h : similar_chars = ['i', 'l', '1', 'L', 'o', '0', 'O'] := by decide
  refine ⟨h, ⟨by decide, by decide, by decide, by decide⟩, by decide, ?_⟩
  intro ch
  rw [h]
  simp

/-- C1 (code-bug evidence): with `exclude_similar = true` and only uppercase
enabled, the draw stream `[11]` makes the guaranteed uppercase pick (taken
from the unfiltered alphabet at source lines 79-80) return the password "L",
which is a member of the AmbiguitySet — the claimed exclusion invariant fails
on the guaranteed-representative step. -/
theorem exclude_similar_guarantee_violation :
    generate_password ⟨1, true, false, false, false, true⟩ [11] [] =
      Except.ok ['L'] ∧ 'L' ∈ similar_chars :=
  ⟨rfl, by decide⟩

/-- C7 (code-bug evidence): with `exclude_similar = true` and only lowercase
enabled, the draw stream `[8]` yields the password "i", whose character is
not in the exclusion-filtered pool of the enabled class — the claimed
composed-only-from-the-filtered-union property fails. -/
theorem password_outside_pool_violation :
    generate_password ⟨1, false, true, false, false, true⟩ [8] [] =
      Except.ok ['i'] ∧ 'i' ∈ similar_chars ∧
      'i' ∉ chars_pool ⟨1, false, true, false, false, true⟩ :=
  ⟨rfl, by decide, by decide⟩

/-- C10: removing "il1Lo0O" from the four fixed class alphabets leaves 24
uppercase, 23 lowercase, 8 digit and all 26 special characters, so the
filtered pool is non-empty whenever some class is enabled, and exclusion
filtering alone never makes `generate_password` fail: any configuration with
a class enabled and a feasible length succeeds. -/
theorem filtered_alphabets_and_feasibility :
    (ascii_uppercase.filter (fun ch => !(similar_chars.contains ch))).length
        = 24 ∧
    (ascii_lowercase.filter (fun ch => !(similar_chars.contains ch))).length
        = 23 ∧
    (digits.filter (fun ch => !(similar_chars.contains ch))).length = 8 ∧
    (special.filter (fun ch => !(similar_chars.contains ch))).length = 26 ∧
    special.length = 26 ∧
    (∀ c : Config,
      (c.use_uppercase || c.use_lowercase || c.use_digits ||
        c.use_special) = true → chars_pool c ≠ []) ∧
    (∀ (c : Config) (rs ss : List Nat),
      (c.use_uppercase || c.use_lowercase || c.use_digits ||
        c.use_special) = true → min_length c ≤ c.length →
      ∃ p, generate_password c rs ss = Except.ok p) := by
  refine ⟨by decide, by decide, by decide, by decide, by decide,
    chars_pool_ne_nil, fun c rs ss h1 h2 => ?_⟩
  have hne := chars_pool_ne_nil c h1
  have hE : ¬((chars_pool c).isEmpty = true) := by
    rw [List.isEmpty_iff]
    exact hne
  have hok : generate_password c rs ss =
      Except.ok (shuffle (generate_core c rs).1 ss) := by
    unfold generate_password
    rw [if_neg hE, if_neg (Nat.not_lt.mpr h2)]
  exact ⟨_, hok⟩

/-- C10 witness: a concrete exclusion-mode configuration with one enabled
class has a non-empty pool and generates successfully. -/
theorem filtered_alphabets_and_feasibility_witness :
    chars_pool ⟨5, true, false, false, false, true⟩ ≠ [] ∧
    (∃ p, generate_password ⟨5, true, false, false, false, true⟩
      [0, 1, 2, 3, 4] [9, 9, 9, 9] = Except.ok p) :=
  ⟨filtered_alphabets_and_feasibility.2.2.2.2.2.1 _ (by decide),
   filtered_alphabets_and_feasibility.2.2.2.2.2.2 _ _ _ (by decide)
     (by decide)⟩

/-- C2: `generate_password` fails (with the modelled `ValueError`) exactly
when no class is enabled or the requested length is below the number of
enabled classes (`min_length`); in particular length 2 with all four classes
fails, and an empty class set fails for every length. -/
theorem generate_password_error_iff :
    (∀ (c : Config) (rs ss : List Nat),
      (∃ msg, generate_password c rs ss = Except.error msg) ↔
        ((c.use_uppercase || c.use_lowercase || c.use_digits ||
            c.use_special) = false ∨ c.length < min_length c)) ∧
    (∀ rs ss : List Nat, ∃ msg,
      generate_password ⟨2, true, true, true, true, false⟩ rs ss =
        Except.error msg) ∧
    (∀ (n : Nat) (ex : Bool) (rs ss : List Nat), ∃ msg,
      generate_password ⟨n, false, false, false, false, ex⟩ rs ss =
        Except.error msg) := by
  refine ⟨fun c rs ss => ?_, fun rs ss => ⟨_, rfl⟩, fun n ex rs ss => ?_⟩
  · constructor
    · rintro ⟨msg, hmsg⟩
      unfold generate_password at hmsg
      split at hmsg
      · rename_i h1
        left
        rw [← chars_pool_empty_iff]
        exact List.isEmpty_iff.mp h1
      · split at hmsg
        · rename_i h2
          right
          exact h2
        · injection hmsg
    · intro h
      rcases h with h | h
      · have h0 : chars_pool c = [] := (chars_pool_empty_iff c).mpr h
        have hE : (chars_pool c).isEmpty = true := by rw [h0]; rfl
        have herr : generate_password c rs ss =
            Except.error "At least one character set must be enabled" := by
          unfold generate_password
          rw [if_pos hE]
        exact ⟨_, herr⟩
      · by_cases hE : (chars_pool c).isEmpty = true
        · have herr : generate_password c rs ss =
              Except.error "At least one character set must be enabled" := by
            unfold generate_password
            rw [if_pos hE]
          exact ⟨_, herr⟩
        · have herr : generate_password c rs ss = Except.error
              "Password length must be at least the number of selected character types" := by
            unfold generate_password
            rw [if_neg hE, if_pos h]
          exact ⟨_, herr⟩
  · cases ex <;> exact ⟨_, rfl⟩

/-- C4: whenever `generate_password` succeeds (and the explicit draw stream
holds the `length` draws the source's unbounded entropy source always
provides), the returned password has exactly the requested length. -/
theorem generate_password_length_invariant (c : Config) (rs ss : List Nat)
    (p : List Char) (hrs : c.length ≤ rs.length)
    (h : generate_password c rs ss = Except.ok p) :
    p.length = c.length := by
  obtain ⟨hne, hmin, hp⟩ := generate_password_ok c rs ss p h
  rw [hp, shuffle_length]
  unfold generate_core
  apply fillLoop_length _ _ _ (chars_pool_choice c hne)
  · rw [guarantee_length]
    exact hmin
  · rw [guarantee_length, guarantee_snd_length]
    omega

/-- C4 witness at a concrete configuration. -/
theorem generate_password_length_invariant_witness :
    generate_password ⟨4, true, true, true, true, false⟩ [0, 0, 0, 0]
      [0, 0, 0] = Except.ok ['a', '0', '!', 'A'] ∧
    (['a', '0', '!', 'A'] : List Char).length = 4 :=
  ⟨rfl, generate_password_length_invariant ⟨4, true, true, true, true, false⟩
    [0, 0, 0, 0] [0, 0, 0] ['a', '0', '!', 'A'] (by decide) rfl⟩

/-- C3: every successful call returns a password containing, for each enabled
class, at least one character of that class's alphabet — the guarantee
survives the final shuffle. -/
theorem generate_password_class_coverage (c : Config) (rs ss : List Nat)
    (p : List Char) (h : generate_password c rs ss = Except.ok p) :
    (c.use_uppercase = true → ∃ ch, ch ∈ p ∧ ch ∈ ascii_uppercase) ∧
    (c.use_lowercase = true → ∃ ch, ch ∈ p ∧ ch ∈ ascii_lowercase) ∧
    (c.use_digits = true → ∃ ch, ch ∈ p ∧ ch ∈ digits) ∧
    (c.use_special = true → ∃ ch, ch ∈ p ∧ ch ∈ special) := by
  obtain ⟨hne, hmin, hp⟩ := generate_password_ok c rs ss p h
  have hmemp : ∀ ch, ch ∈ (generate_core c rs).1 → ch ∈ p := by
    intro ch hch
    rw [hp]
    exact (shuffle_mem _ _ _).mpr hch
  obtain ⟨t, hext, _⟩ := fillLoop_extends c.length c.exclude_similar
    (chars_pool c) (guarantee_draws c rs).2 (guarantee_draws c rs).1
  have hgd : ∀ ch, ch ∈ (guarantee_draws c rs).1 → ch ∈ p := by
    intro ch hch
    apply hmemp
    unfold generate_core
    rw [hext]
    exact List.mem_append_left _ hch
  obtain ⟨rU, rL, rD, rS, hg⟩ := guarantee_eq c rs
  refine ⟨fun hu => ?_, fun hlo => ?_, fun hd => ?_, fun hs => ?_⟩
  · refine ⟨choice ascii_uppercase rU, hgd _ ?_, choice_mem _ _ upper_ne_nil⟩
    rw [hg, hu]
    simp
  · refine ⟨choice ascii_lowercase rL, hgd _ ?_, choice_mem _ _ lower_ne_nil⟩
    rw [hg, hlo]
    simp
  · refine ⟨choice digits rD, hgd _ ?_, choice_mem _ _ digits_ne_nil⟩
    rw [hg, hd]
    simp
  · refine ⟨choice special rS, hgd _ ?_, choice_mem _ _ special_ne_nil⟩
    rw [hg, hs]
    simp

/-- C3 witness at a concrete configuration. -/
theorem generate_password_class_coverage_witness :
    (∃ ch, ch ∈ (['a', '0', '!', 'A'] : List Char) ∧
      ch ∈ ascii_uppercase) ∧
    (∃ ch, ch ∈ (['a', '0', '!', 'A'] : List Char) ∧
      ch ∈ ascii_lowercase) ∧
    (∃ ch, ch ∈ (['a', '0', '!', 'A'] : List Char) ∧ ch ∈ digits) ∧
    (∃ ch, ch ∈ (['a', '0', '!', 'A'] : List Char) ∧ ch ∈ special) := by
  have h := generate_password_class_coverage
    ⟨4, true, true, true, true, false⟩ [0, 0, 0, 0] [0, 0, 0]
    ['a', '0', '!', 'A'] rfl
  exact ⟨h.1 rfl, h.2.1 rfl, h.2.2.1 rfl, h.2.2.2 rfl⟩

/-- C5: on a valid configuration the character-selection phase consumes
exactly `length` draws from the stream: one guaranteed draw per enabled
class and `length - k` fill draws, the fill loop's skip branch never firing
because the pool is pre-filtered (the shuffle then uses its own stream; the
functions are total, so termination is by construction). -/
theorem generate_password_draw_count (c : Config) (rs : List Nat)
    (h1 : (c.use_uppercase || c.use_lowercase || c.use_digits ||
      c.use_special) = true)
    (h2 : min_length c ≤ c.length) (h3 : c.length ≤ rs.length) :
    rs.length - (generate_core c rs).2.length = c.length := by
  have hne := chars_pool_ne_nil c h1
  unfold generate_core
  rw [fillLoop_consumed c.length c.exclude_similar (chars_pool c)
    (chars_pool_choice c hne) (guarantee_draws c rs).2
    (guarantee_draws c rs).1]
  rw [guarantee_length, guarantee_snd_length]
  omega

/-- C5 witness: a 6-character all-classes exclusion-mode call consumes
exactly 6 of the 7 supplied draws. -/
theorem generate_password_draw_count_witness :
    ([0, 0, 0, 0, 30, 31, 99] : List Nat).length -
      (generate_core ⟨6, true, true, true, true, true⟩
        [0, 0, 0, 0, 30, 31, 99]).2.length = 6 :=
  generate_password_draw_count _ _ (by decide) (by decide) (by decide)

/-- C9: when the requested length equals the number of enabled classes, the
fill loop contributes nothing: the password is a permutation of the k
guaranteed draws — it has exactly one character of each enabled class's
(pairwise disjoint) alphabet and every character belongs to some enabled
class's alphabet. -/
theorem generate_password_exact_cover (c : Config) (rs ss : List Nat)
    (p : List Char) (hlen : c.length = min_length c)
    (h : generate_password c rs ss = Except.ok p) :
    p.length = min_length c ∧
    (c.use_uppercase = true →
      p.countP (fun ch => ascii_uppercase.contains ch) = 1) ∧
    (c.use_lowercase = true →
      p.countP (fun ch => ascii_lowercase.contains ch) = 1) ∧
    (c.use_digits = true → p.countP (fun ch => digits.contains ch) = 1) ∧
    (c.use_special = true → p.countP (fun ch => special.contains ch) = 1) ∧
    (∀ ch ∈ p,
      (c.use_uppercase = true ∧ ch ∈ ascii_uppercase) ∨
      (c.use_lowercase = true ∧ ch ∈ ascii_lowercase) ∨
      (c.use_digits = true ∧ ch ∈ digits) ∨
      (c.use_special = true ∧ ch ∈ special)) := by
  obtain ⟨hne, hmin, hp⟩ := generate_password_ok c rs ss p h
  have hfull : c.length ≤ (guarantee_draws c rs).1.length := by
    rw [guarantee_length]
    omega
  have hcore : (generate_core c rs).1 = (guarantee_draws c rs).1 := by
    unfold generate_core
    rw [fillLoop_of_full _ _ _ _ _ hfull]
  have hperm : p.Perm (guarantee_draws c rs).1 := by
    rw [hp, hcore]
    exact shuffle_perm _ _
  obtain ⟨rU, rL, rD, rS, hg⟩ := guarantee_eq c rs
  refine ⟨?_, fun hu => ?_, fun hlo => ?_, fun hd => ?_, fun hs => ?_, ?_⟩
  · rw [hperm.length_eq, guarantee_length]
  · rw [hperm.countP_eq, hg]
    simp only [List.countP_append]
    rw [hu, if_pos rfl, countP_opt_one _ rU upper_ne_nil,
      countP_opt_zero ascii_uppercase ascii_lowercase c.use_lowercase rL
        lower_ne_nil lower_not_in_upper,
      countP_opt_zero ascii_uppercase digits c.use_digits rD
        digits_ne_nil digits_not_in_upper,
      countP_opt_zero ascii_uppercase special c.use_special rS
        special_ne_nil special_not_in_upper]
  · rw [hperm.countP_eq, hg]
    simp only [List.countP_append]
    rw [hlo, if_pos rfl, countP_opt_one _ rL lower_ne_nil,
      countP_opt_zero ascii_lowercase ascii_uppercase c.use_uppercase rU
        upper_ne_nil upper_not_in_lower,
      countP_opt_zero ascii_lowercase digits c.use_digits rD
        digits_ne_nil digits_not_in_lower,
      countP_opt_zero ascii_lowercase special c.use_special rS
        special_ne_nil special_not_in_lower]
  · rw [hperm.countP_eq, hg]
    simp only [List.countP_append]
    rw [hd, if_pos rfl, countP_opt_one _ rD digits_ne_nil,
      countP_opt_zero digits ascii_uppercase c.use_uppercase rU
        upper_ne_nil upper_not_in_digits,
      countP_opt_zero digits ascii_lowercase c.use_lowercase rL
        lower_ne_nil lower_not_in_digits,
      countP_opt_zero digits special c.use_special rS
        special_ne_nil special_not_in_digits]
  · rw [hperm.countP_eq, hg]
    simp only [List.countP_append]
    rw [hs, if_pos rfl, countP_opt_one _ rS special_ne_nil,
      countP_opt_zero special ascii_uppercase c.use_uppercase rU
        upper_ne_nil upper_not_in_special,
      countP_opt_zero special ascii_lowercase c.use_lowercase rL
        lower_ne_nil lower_not_in_special,
      countP_opt_zero special digits c.use_digits rD
        digits_ne_nil digits_not_in_special]
  · intro ch hch
    have hch2 : ch ∈ (guarantee_draws c rs).1 := hperm.mem_iff.mp hch
    rw [hg] at hch2
    simp only [List.mem_append, or_assoc] at hch2
    rcases hch2 with h1 | h1 | h1 | h1
    · obtain ⟨hb, hm⟩ := mem_ite_alpha h1
      exact Or.inl ⟨hb,
        (List.mem_singleton.mp hm) ▸ choice_mem _ _ upper_ne_nil⟩
    · obtain ⟨hb, hm⟩ := mem_ite_alpha h1
      exact Or.inr (Or.inl ⟨hb,
        (List.mem_singleton.mp hm) ▸ choice_mem _ _ lower_ne_nil⟩)
    · obtain ⟨hb, hm⟩ := mem_ite_alpha h1
      exact Or.inr (Or.inr (Or.inl ⟨hb,
        (List.mem_singleton.mp hm) ▸ choice_mem _ _ digits_ne_nil⟩))
    · obtain ⟨hb, hm⟩ := mem_ite_alpha h1
      exact Or.inr (Or.inr (Or.inr ⟨hb,
        (List.mem_singleton.mp hm) ▸ choice_mem _ _ special_ne_nil⟩))

/-- C9 witness at a length-4, all-classes configuration. -/
theorem generate_password_exact_cover_witness :
    (['a', '0', '!', 'A'] : List Char).length =
      min_length ⟨4, true, true, true, true, false⟩ ∧
    (['a', '0', '!', 'A'] : List Char).countP
      (fun ch => ascii_uppercase.contains ch) = 1 := by
  have h := generate_password_exact_cover
    ⟨4, true, true, true, true, false⟩ [0, 0, 0, 0] [0, 0, 0]
    ['a', '0', '!', 'A'] (by decide) rfl
  exact ⟨h.1, h.2.1 rfl⟩

end PasswordGen
